import Mathlib

/-!
Verification of the structural-extraction engine and the structured-output
recovery chain of the code-modernisation backend.

The definitions below are shallow embeddings of the Python source:
`backend/parsers/ast_parser.py` (file discovery filter, language detection,
block-span primitives, the Python and generic per-file extractors) and
`backend/converters/code_converter.py` (the JSON recovery chain, the JSON
repair rewrites, and manual content extraction).  Strings are modelled as
Lean `String`/`List Char`; Python line lists as `List String`; fallible
paths return `Option`.
-/

set_option maxRecDepth 4000

/-- Character constants used throughout (brace and quote characters are
built via `Char.ofNat` so that the embedding can talk about them uniformly). -/
def lbraceChar : Char := Char.ofNat 123

/-- Closing brace character. -/
def rbraceChar : Char := Char.ofNat 125

/-- Double-quote character. -/
def dquoteChar : Char := Char.ofNat 34

/-- Backtick character (used by the markdown fence patterns). -/
def btickChar : Char := Char.ofNat 96

/-- Backslash character. -/
def bslashChar : Char := Char.ofNat 92

/-- Number of occurrences of a character in a string, modelling Python
`str.count` for single-character arguments. -/
def countChar (c : Char) (s : String) : Nat := s.toList.count c

/-- Python `string.split` on a newline, as used by every extractor
(`content.split(chr(10))`). -/
def splitLines (s : String) : List String := s.splitOn "\n"

/-- Python `chr(10).join(lines)` — the empty list joins to the empty string. -/
def joinNL : List String → String
  | [] => ""
  | [l] => l
  | l :: l2 :: ls => l ++ "\n" ++ joinNL (l2 :: ls)

/-- Whitespace characters stripped by Python `str.strip()` (ASCII subset). -/
def isPySpace (c : Char) : Bool :=
  c = ' ' || c = '\t' || c = '\n' || c = '\r' || c = Char.ofNat 11 || c = Char.ofNat 12

/-- Python `str.strip()` on the ASCII whitespace set. -/
def pyStrip (s : String) : String :=
  String.mk (((s.toList.dropWhile isPySpace).reverse.dropWhile isPySpace).reverse)

/-- Per-line brace balance `line.count(lbrace) - line.count(rbrace)` used by
`_extract_code_block` in `ast_parser.py`. -/
def lineNet (l : String) : Int :=
  (countChar lbraceChar l : Int) - (countChar rbraceChar l : Int)

/-- Sum of the per-line brace balances of a list of lines. -/
def netSum (ls : List String) : Int := (ls.map lineNet).sum

/-- Phase 1 of `_extract_code_block`: starting from an accumulator, walk the
lines adding each balance; return the offset of the first line at which the
running total becomes positive, together with the total at that line
(`None` when the total never becomes positive, in which case the Python loop
falls through with the fully accumulated total). -/
def scanOpen : List String → Int → Option (Nat × Int)
  | [], _ => none
  | l :: ls, acc =>
    let acc2 := acc + lineNet l
    if acc2 > 0 then some (0, acc2)
    else (scanOpen ls acc2).map (fun p => (p.1 + 1, p.2))

/-- Phase 2 of `_extract_code_block`: walk the lines adding each balance to
the carried-over total; return the offset of the first line at which the
running total drops back to `≤ 0`. -/
def scanClose : List String → Int → Option Nat
  | [], _ => none
  | l :: ls, acc =>
    let acc2 := acc + lineNet l
    if acc2 ≤ 0 then some 0
    else (scanClose ls acc2).map (fun q => q + 1)

/-- Embedding of `ASTParser._extract_code_block(lines, start_line, content)`
(`ast_parser.py` lines 1188-1213).  Phase 1 advances until the running
opens-minus-closes total first becomes positive (if it never does, the loop
completes and leaves `end_idx` at the declaration index with the whole-tail
total accumulated); phase 2 continues from `end_idx` until the total returns
to `≤ 0`; the result is the newline-join of `lines[start_idx:end_idx]`.
Modelled for the 1-based start lines the callers supply. -/
def extract_code_block (lines : List String) (startLine : Nat) : String :=
  let tail := lines.drop (startLine - 1)
  match scanOpen tail 0 with
  | some pr =>
    match scanClose (tail.drop (pr.1 + 1)) pr.2 with
    | some q => joinNL (tail.take (pr.1 + 1 + q + 1))
    | none => joinNL (tail.take (pr.1 + 1))
  | none =>
    match scanClose tail (netSum tail) with
    | some q => joinNL (tail.take (q + 1))
    | none => ""

theorem netSum_nil : netSum [] = 0 := rfl

theorem netSum_cons (l : String) (ls : List String) :
    netSum (l :: ls) = lineNet l + netSum ls := by
  simp [netSum]

theorem scanOpen_eq_some (ls : List String) (a : Int) (p : Nat)
    (hp : p < ls.length)
    (hpos : a + netSum (ls.take (p + 1)) > 0)
    (hmin : ∀ k, k < p → a + netSum (ls.take (k + 1)) ≤ 0) :
    scanOpen ls a = some (p, a + netSum (ls.take (p + 1))) := by
  induction ls generalizing a p with
  | nil => simp at hp
  | cons l ls ih =>
    cases p with
    | zero =>
      have h1 : a + lineNet l > 0 := by
        simpa [netSum_cons, netSum_nil] using hpos
      simp [scanOpen, h1, netSum_cons, netSum_nil]
    | succ p =>
      have h0 : ¬ (a + lineNet l > 0) := by
        have := hmin 0 (Nat.succ_pos p)
        simpa [netSum_cons, netSum_nil] using this
      have hrec := ih (a + lineNet l) p (by simpa using Nat.lt_of_succ_lt_succ hp)
        (by
          have : a + netSum ((l :: ls).take (p + 2)) > 0 := hpos
          simpa [List.take_succ_cons, netSum_cons, add_assoc] using this)
        (by
          intro k hk
          have := hmin (k + 1) (Nat.succ_lt_succ hk)
          simpa [List.take_succ_cons, netSum_cons, add_assoc] using this)
      simp only [scanOpen, h0, if_false, hrec, Option.map_some]
      simp [List.take_succ_cons, netSum_cons, add_assoc]

theorem scanOpen_eq_none (ls : List String) (a : Int)
    (h : ∀ k, k < ls.length → a + netSum (ls.take (k + 1)) ≤ 0) :
    scanOpen ls a = none := by
  induction ls generalizing a with
  | nil => rfl
  | cons l ls ih =>
    have h0 : ¬ (a + lineNet l > 0) := by
      have := h 0 (Nat.succ_pos _)
      simpa [netSum_cons, netSum_nil] using this
    have hrec := ih (a + lineNet l) (by
      intro k hk
      have := h (k + 1) (Nat.succ_lt_succ hk)
      simpa [List.take_succ_cons, netSum_cons, add_assoc] using this)
    simp [scanOpen, h0, hrec]

theorem scanOpen_some_bound (ls : List String) (a : Int) (p : Nat) (b : Int)
    (h : scanOpen ls a = some (p, b)) :
    p < ls.length ∧ b = a + netSum (ls.take (p + 1)) := by
  induction ls generalizing a p b with
  | nil => simp [scanOpen] at h
  | cons l ls ih =>
    by_cases hpos : a + lineNet l > 0
    · simp [scanOpen, hpos] at h
      obtain ⟨hp, hb⟩ := h
      subst hp
      constructor
      · exact Nat.succ_pos _
      · simp [netSum_cons, netSum_nil, ← hb]
    · cases hsc : scanOpen ls (a + lineNet l) with
      | none => simp [scanOpen, hpos, hsc] at h
      | some x =>
        obtain ⟨p2, b2⟩ := x
        simp [scanOpen, hpos, hsc] at h
        obtain ⟨hp, hb⟩ := h
        obtain ⟨hlt, hval⟩ := ih (a + lineNet l) p2 b2 hsc
        subst hp
        subst hb
        refine ⟨Nat.succ_lt_succ hlt, ?_⟩
        simp [List.take_succ_cons, netSum_cons, add_assoc, hval]

theorem scanClose_eq_some (ls : List String) (a : Int) (q : Nat)
    (hq : q < ls.length)
    (hle : a + netSum (ls.take (q + 1)) ≤ 0)
    (hmin : ∀ k, k < q → a + netSum (ls.take (k + 1)) > 0) :
    scanClose ls a = some q := by
  induction ls generalizing a q with
  | nil => simp at hq
  | cons l ls ih =>
    cases q with
    | zero =>
      have h1 : a + lineNet l ≤ 0 := by
        simpa [netSum_cons, netSum_nil] using hle
      simp [scanClose, h1]
    | succ q =>
      have h0 : ¬ (a + lineNet l ≤ 0) := by
        have := hmin 0 (Nat.succ_pos q)
        simpa [netSum_cons, netSum_nil] using this
      have hrec := ih (a + lineNet l) q (by simpa using Nat.lt_of_succ_lt_succ hq)
        (by
          have : a + netSum ((l :: ls).take (q + 2)) ≤ 0 := hle
          simpa [List.take_succ_cons, netSum_cons, add_assoc] using this)
        (by
          intro k hk
          have := hmin (k + 1) (Nat.succ_lt_succ hk)
          simpa [List.take_succ_cons, netSum_cons, add_assoc] using this)
      simp [scanClose, h0, hrec]

theorem scanClose_some_bound (ls : List String) (a : Int) (q : Nat)
    (h : scanClose ls a = some q) : q < ls.length := by
  induction ls generalizing a q with
  | nil => simp [scanClose] at h
  | cons l ls ih =>
    by_cases hle : a + lineNet l ≤ 0
    · simp [scanClose, hle] at h
      subst h
      exact Nat.succ_pos _
    · cases hsc : scanClose ls (a + lineNet l) with
      | none => simp [scanClose, hle, hsc] at h
      | some q2 =>
        simp [scanClose, hle, hsc] at h
        subst h
        exact Nat.succ_lt_succ (ih (a + lineNet l) q2 hsc)

theorem scanOpen_none_inv (ls : List String) (a : Int)
    (h : scanOpen ls a = none) :
    ∀ k, k < ls.length → a + netSum (ls.take (k + 1)) ≤ 0 := by
  induction ls generalizing a with
  | nil => intro k hk; simp at hk
  | cons l ls ih =>
    intro k hk
    by_cases hpos : a + lineNet l > 0
    · simp [scanOpen, hpos] at h
    · cases hsc : scanOpen ls (a + lineNet l) with
      | none =>
        cases k with
        | zero => simpa [netSum_cons, netSum_nil] using hpos
        | succ k =>
          have := ih (a + lineNet l) hsc k (by simpa using Nat.lt_of_succ_lt_succ hk)
          simpa [List.take_succ_cons, netSum_cons, add_assoc] using this
      | some x => simp [scanOpen, hpos, hsc] at h

theorem netSum_take_add (l : List String) (n m : Nat) :
    netSum (l.take (n + m)) = netSum (l.take n) + netSum ((l.drop n).take m) := by
  rw [List.take_add]
  simp [netSum]

theorem scanClose_head_le (l : String) (ls : List String) (a : Int)
    (h : a + lineNet l ≤ 0) : scanClose (l :: ls) a = some 0 := by
  simp [scanClose, h]

theorem extract_code_block_eq_oc (lines : List String) (startLine p : Nat) (b : Int) (q : Nat)
    (hopen : scanOpen (lines.drop (startLine - 1)) 0 = some (p, b))
    (hclose : scanClose ((lines.drop (startLine - 1)).drop (p + 1)) b = some q) :
    extract_code_block lines startLine =
      joinNL ((lines.drop (startLine - 1)).take (p + 1 + q + 1)) := by
  simp only [extract_code_block, hopen, hclose]

theorem extract_code_block_eq_onone (lines : List String) (startLine p : Nat) (b : Int)
    (hopen : scanOpen (lines.drop (startLine - 1)) 0 = some (p, b))
    (hclose : scanClose ((lines.drop (startLine - 1)).drop (p + 1)) b = none) :
    extract_code_block lines startLine =
      joinNL ((lines.drop (startLine - 1)).take (p + 1)) := by
  simp only [extract_code_block, hopen, hclose]

theorem extract_code_block_eq_noopen (lines : List String) (startLine q : Nat)
    (hopen : scanOpen (lines.drop (startLine - 1)) 0 = none)
    (hclose : scanClose (lines.drop (startLine - 1))
      (netSum (lines.drop (startLine - 1))) = some q) :
    extract_code_block lines startLine =
      joinNL ((lines.drop (startLine - 1)).take (q + 1)) := by
  simp only [extract_code_block, hopen, hclose]

/-- C5.  The brace-balance scan `_extract_code_block`: when the running
opens-minus-closes total over the lines from the declaration line first
becomes positive at (0-based) offset `p` of the tail and first returns to
`≤ 0` at offset `q > p`, the result is exactly the join of the lines from
the declaration through offset `q` inclusive (first conjunct; the spec's
3-line example is the final conjunct).  The claim's one-line-body case only
holds in the amended form of the second conjunct: when the running total
never becomes positive on any line of the tail (for instance a one-line
body at the end of the file), the scan returns exactly the single
declaration line; a one-line body followed by lines that re-open a brace
instead extends the span (see the counterexample theorem). -/
theorem extract_code_block_phase_spec :
    (∀ (lines : List String) (startLine p q : Nat),
      p < (lines.drop (startLine - 1)).length →
      netSum ((lines.drop (startLine - 1)).take (p + 1)) > 0 →
      (∀ k, k < p → netSum ((lines.drop (startLine - 1)).take (k + 1)) ≤ 0) →
      p < q →
      q < (lines.drop (startLine - 1)).length →
      netSum ((lines.drop (startLine - 1)).take (q + 1)) ≤ 0 →
      (∀ k, p < k → k < q → netSum ((lines.drop (startLine - 1)).take (k + 1)) > 0) →
      extract_code_block lines startLine =
        joinNL ((lines.drop (startLine - 1)).take (q + 1))) ∧
    (∀ (lines : List String) (startLine : Nat),
      (lines.drop (startLine - 1)) ≠ [] →
      (∀ k, k < (lines.drop (startLine - 1)).length →
        netSum ((lines.drop (startLine - 1)).take (k + 1)) ≤ 0) →
      extract_code_block lines startLine =
        joinNL ((lines.drop (startLine - 1)).take 1)) ∧
    extract_code_block ["", "", "public void f() \x7b", "  x();", "\x7d"] 3 =
      "public void f() \x7b\n  x();\n\x7d" := by
  refine ⟨?_, ?_, by rfl⟩
  · intro lines startLine p q hp hpos hmin hpq hq hle hqmin
    have hopen : scanOpen (lines.drop (startLine - 1)) 0 =
        some (p, 0 + netSum ((lines.drop (startLine - 1)).take (p + 1))) :=
      scanOpen_eq_some _ 0 p hp (by simpa using hpos) (by intro k hk; simpa using hmin k hk)
    have hclose : scanClose ((lines.drop (startLine - 1)).drop (p + 1))
        (0 + netSum ((lines.drop (startLine - 1)).take (p + 1))) = some (q - (p + 1)) := by
      apply scanClose_eq_some
      · have := List.length_drop (p + 1) (lines.drop (startLine - 1))
        omega
      · have harith : p + 1 + (q - (p + 1) + 1) = q + 1 := by omega
        have := netSum_take_add (lines.drop (startLine - 1)) (p + 1) (q - (p + 1) + 1)
        rw [harith] at this
        omega
      · intro k hk
        have harith : p + 1 + (k + 1) = (p + 1 + k) + 1 := by omega
        have hseg := netSum_take_add (lines.drop (startLine - 1)) (p + 1) (k + 1)
        rw [harith] at hseg
        have := hqmin (p + 1 + k) (by omega) (by omega)
        omega
    have := extract_code_block_eq_oc lines startLine p _ (q - (p + 1)) hopen hclose
    rw [this]
    have harith : p + 1 + (q - (p + 1)) + 1 = q + 1 := by omega
    rw [harith]
  · intro lines startLine hne hall
    have hopen : scanOpen (lines.drop (startLine - 1)) 0 = none :=
      scanOpen_eq_none _ 0 (by intro k hk; simpa using hall k hk)
    obtain ⟨t0, trest, ht⟩ := List.exists_cons_of_ne_nil hne
    have hlen : 0 < (lines.drop (startLine - 1)).length := by
      rw [ht]; exact Nat.succ_pos _
    have hsum : netSum (lines.drop (startLine - 1)) ≤ 0 := by
      have := hall ((lines.drop (startLine - 1)).length - 1) (by omega)
      have harith : (lines.drop (startLine - 1)).length - 1 + 1 =
          (lines.drop (startLine - 1)).length := by omega
      rw [harith, List.take_length] at this
      exact this
    have hhead : lineNet t0 ≤ 0 := by
      have := hall 0 hlen
      rw [ht] at this
      simpa [netSum_cons, netSum_nil] using this
    have hclose : scanClose (lines.drop (startLine - 1))
        (netSum (lines.drop (startLine - 1))) = some 0 := by
      rw [ht]
      apply scanClose_head_le
      rw [← ht]
      omega
    exact extract_code_block_eq_noopen lines startLine 0 hopen hclose

/-- C5 counterexample.  A one-line body (the declaration line both opens and
closes its block, net balance zero) followed by lines that open a brace:
the scan does not stop at the declaration line — phase 1 keeps accumulating
into the following lines, so the span covers all three lines, refuting the
claim that a one-line body always yields exactly the single declaration
line. -/
theorem extract_code_block_one_line_body_cex :
    extract_code_block ["void f() \x7b x(); \x7d", "void g() \x7b", "\x7d"] 1 =
      "void f() \x7b x(); \x7d\nvoid g() \x7b\n\x7d" ∧
    ("void f() \x7b x(); \x7d\nvoid g() \x7b\n\x7d" = "void f() \x7b x(); \x7d") = False := by
  constructor
  · rfl
  · decide

theorem extract_code_block_phase_spec_witness :
    extract_code_block ["", "", "public void f() \x7b", "  x();", "\x7d"] 3 =
      joinNL (((["", "", "public void f() \x7b", "  x();", "\x7d"] :
        List String).drop 2).take 3) ∧
    extract_code_block ["int f();"] 1 = joinNL (((["int f();"] : List String).drop 0).take 1) := by
  constructor
  · exact extract_code_block_phase_spec.1 ["", "", "public void f() \x7b", "  x();", "\x7d"]
      3 0 2 (by decide) (by decide)
      (by intro k hk; exact absurd hk (Nat.not_lt_zero k)) (by decide) (by decide) (by decide)
      (by intro k h1 h2; have hk1 : k + 1 = 2 := (by omega); rw [hk1]; decide)
  · exact extract_code_block_phase_spec.2.1 ["int f();"] 1 (by decide)
      (by
        intro k hk
        have hk1 : k < 1 := by simpa using hk
        have hk0 : k = 0 := Nat.lt_one_iff.mp hk1
        subst hk0
        decide)

/-- C6.  For every valid 1-based start line the brace-balance scan
terminates (it is a total Lean function) and returns the join of a
non-empty span that starts at the declaration line and extends no further
than the last line of the file — also when no opening brace is ever found
(phase 1 exhausts the file and phase 2 then stops on the first line) and
when an opened brace is never closed (phase 2 exhausts the file and the
span ends at the line that opened the block). -/
theorem extract_code_block_bounded (lines : List String) (startLine : Nat)
    (h1 : 1 ≤ startLine) (h2 : startLine ≤ lines.length) :
    ∃ m, 1 ≤ m ∧ m ≤ (lines.drop (startLine - 1)).length ∧
      extract_code_block lines startLine = joinNL ((lines.drop (startLine - 1)).take m) := by
  have htlen : 0 < (lines.drop (startLine - 1)).length := by
    rw [List.length_drop]
    omega
  cases hopen : scanOpen (lines.drop (startLine - 1)) 0 with
  | some pr =>
    obtain ⟨p, b⟩ := pr
    obtain ⟨hp, _⟩ := scanOpen_some_bound _ 0 p b hopen
    cases hclose : scanClose ((lines.drop (startLine - 1)).drop (p + 1)) b with
    | some q =>
      have hq := scanClose_some_bound _ b q hclose
      rw [List.length_drop] at hq
      refine ⟨p + 1 + q + 1, by omega, by omega, ?_⟩
      exact extract_code_block_eq_oc lines startLine p b q hopen hclose
    | none =>
      refine ⟨p + 1, by omega, by omega, ?_⟩
      exact extract_code_block_eq_onone lines startLine p b hopen hclose
  | none =>
    have hall := scanOpen_none_inv _ 0 hopen
    obtain ⟨t0, trest, ht⟩ := List.exists_cons_of_ne_nil
      (List.ne_nil_of_length_pos htlen)
    have hsum : netSum (lines.drop (startLine - 1)) ≤ 0 := by
      have := hall ((lines.drop (startLine - 1)).length - 1) (by omega)
      have harith : (lines.drop (startLine - 1)).length - 1 + 1 =
          (lines.drop (startLine - 1)).length := by omega
      rw [harith, List.take_length] at this
      omega
    have hhead : lineNet t0 ≤ 0 := by
      have := hall 0 htlen
      rw [ht] at this
      simpa [netSum_cons, netSum_nil] using this
    have hclose : scanClose (lines.drop (startLine - 1))
        (netSum (lines.drop (startLine - 1))) = some 0 := by
      rw [ht]
      apply scanClose_head_le
      rw [← ht]
      omega
    refine ⟨1, le_refl 1, by omega, ?_⟩
    exact extract_code_block_eq_noopen lines startLine 0 hopen hclose

theorem extract_code_block_bounded_witness :
    ∃ m, 1 ≤ m ∧ m ≤ ((["void f() \x7b", "  x();"] : List String).drop 0).length ∧
      extract_code_block ["void f() \x7b", "  x();"] 1 =
        joinNL (((["void f() \x7b", "  x();"] : List String).drop 0).take m) :=
  extract_code_block_bounded ["void f() \x7b", "  x();"] 1 (by decide) (by decide)


/-- Kernel-computable `str.endswith` (Python semantics) over the character
list of a string. -/
def pyEndsWith (s suffix : String) : Bool := List.isSuffixOf suffix.toList s.toList

/-- Kernel-computable `str.startswith` over the character list of a string. -/
def pyStartsWith (s pre : String) : Bool := List.isPrefixOf pre.toList s.toList

/-- Loop body of `_extract_variable_declaration`: append each window line
(prefixed by a newline) to the accumulator, stopping right after the first
appended line whose stripped text ends with a semicolon. -/
def accumUntilSemi : String → List String → String
  | acc, [] => acc
  | acc, l :: ls =>
    let acc2 := acc ++ "\n" ++ l
    if pyEndsWith (pyStrip l) ";" then acc2 else accumUntilSemi acc2 ls

/-- Embedding of `ASTParser._extract_variable_declaration(lines, start_line,
content)` (`ast_parser.py` lines 1215-1233).  If the declaration line
already ends (after stripping) with a semicolon it is returned alone;
otherwise the loop `for i in range(start_idx + 1, min(start_idx + 5,
len(lines)))` appends at most the next four lines, breaking after a line
that ends with a semicolon.  Out-of-range start lines return the empty
string (the IndexError branch of the Python try/except); the model covers
the 1-based start lines the callers supply. -/
def extract_variable_declaration (lines : List String) (startLine : Nat) : String :=
  match lines[startLine - 1]? with
  | none => ""
  | some line =>
    if pyEndsWith (pyStrip line) ";" then line
    else accumUntilSemi line ((lines.drop startLine).take 4)

theorem joinNL_cons_append (a l : String) (ls : List String) :
    joinNL ((a ++ "\n" ++ l) :: ls) = a ++ "\n" ++ joinNL (l :: ls) := by
  cases ls with
  | nil => rfl
  | cons x xs => simp [joinNL, String.append_assoc]

theorem accumUntilSemi_no_semi (acc : String) (ls : List String)
    (h : ∀ l ∈ ls, pyEndsWith (pyStrip l) ";" = false) :
    accumUntilSemi acc ls = joinNL (acc :: ls) := by
  induction ls generalizing acc with
  | nil => rfl
  | cons l ls ih =>
    have hl : pyEndsWith (pyStrip l) ";" = false := h l (List.mem_cons_self l ls)
    have hrest : ∀ x ∈ ls, pyEndsWith (pyStrip x) ";" = false := by
      intro x hx
      exact h x (List.mem_cons_of_mem l hx)
    calc accumUntilSemi acc (l :: ls)
        = accumUntilSemi (acc ++ "\n" ++ l) ls := by simp [accumUntilSemi, hl]
      _ = joinNL ((acc ++ "\n" ++ l) :: ls) := ih (acc ++ "\n" ++ l) hrest
      _ = acc ++ "\n" ++ joinNL (l :: ls) := joinNL_cons_append acc l ls
      _ = joinNL (acc :: l :: ls) := rfl

theorem accumUntilSemi_stop (acc : String) (ls : List String) (j : Nat) (lj : String)
    (hget : ls[j]? = some lj)
    (hsemi : pyEndsWith (pyStrip lj) ";" = true)
    (hbefore : ∀ k, k < j → ∀ lk, ls[k]? = some lk → pyEndsWith (pyStrip lk) ";" = false) :
    accumUntilSemi acc ls = joinNL (acc :: ls.take (j + 1)) := by
  induction ls generalizing acc j with
  | nil => simp at hget
  | cons l ls ih =>
    cases j with
    | zero =>
      have hl : l = lj := by simpa using hget
      subst hl
      simp [accumUntilSemi, hsemi, joinNL]
    | succ j =>
      have hl : pyEndsWith (pyStrip l) ";" = false := by
        exact hbefore 0 (Nat.succ_pos j) l (by simp)
      have hrec := ih (acc ++ "\n" ++ l) j (by simpa using hget)
        (by
          intro k hk lk hlk
          exact hbefore (k + 1) (Nat.succ_lt_succ hk) lk (by simpa using hlk))
      rw [List.take_succ_cons]
      calc accumUntilSemi acc (l :: ls)
          = accumUntilSemi (acc ++ "\n" ++ l) ls := by simp [accumUntilSemi, hl]
        _ = joinNL ((acc ++ "\n" ++ l) :: ls.take (j + 1)) := hrec
        _ = acc ++ "\n" ++ joinNL (l :: ls.take (j + 1)) := joinNL_cons_append acc l _
        _ = joinNL (acc :: l :: ls.take (j + 1)) := rfl

/-- C8.  The bounded multi-line statement scan
`_extract_variable_declaration`: a declaration line that (after stripping)
already ends with the terminator is returned alone; otherwise subsequent
lines are appended, stopping right after the first appended line that ends
with the terminator.  Amended from the claim: the lookahead window holds at
most the 4 lines following the declaration (the Python range runs to
`min(start_idx + 5, len(lines))` exclusive, so the whole accumulated span
is at most 5 lines), not 5 subsequent lines; a terminator on the 5th
following line is out of reach (see the counterexample theorem). -/
theorem extract_variable_declaration_spec :
    (∀ (lines : List String) (startLine : Nat) (decl : String),
      lines[startLine - 1]? = some decl →
      pyEndsWith (pyStrip decl) ";" = true →
      extract_variable_declaration lines startLine = decl) ∧
    (∀ (lines : List String) (startLine : Nat) (decl : String),
      lines[startLine - 1]? = some decl →
      pyEndsWith (pyStrip decl) ";" = false →
      (∀ l ∈ (lines.drop startLine).take 4, pyEndsWith (pyStrip l) ";" = false) →
      extract_variable_declaration lines startLine =
        joinNL (decl :: (lines.drop startLine).take 4)) ∧
    (∀ (lines : List String) (startLine : Nat) (decl : String) (j : Nat) (lj : String),
      lines[startLine - 1]? = some decl →
      pyEndsWith (pyStrip decl) ";" = false →
      ((lines.drop startLine).take 4)[j]? = some lj →
      pyEndsWith (pyStrip lj) ";" = true →
      (∀ k, k < j → ∀ lk, ((lines.drop startLine).take 4)[k]? = some lk →
        pyEndsWith (pyStrip lk) ";" = false) →
      extract_variable_declaration lines startLine =
        joinNL (decl :: ((lines.drop startLine).take 4).take (j + 1))) := by
  refine ⟨?_, ?_, ?_⟩
  · intro lines startLine decl hget hsemi
    simp [extract_variable_declaration, hget, hsemi]
  · intro lines startLine decl hget hsemi hall
    simp only [extract_variable_declaration, hget, hsemi, Bool.false_eq_true, if_false]
    exact accumUntilSemi_no_semi decl _ hall
  · intro lines startLine decl j lj hget hdecl hj hjsemi hstop
    simp only [extract_variable_declaration, hget, hdecl, Bool.false_eq_true, if_false]
    exact accumUntilSemi_stop decl _ j lj hj hjsemi hstop

/-- C8 counterexample.  Six lines where only the fifth line after the
declaration carries the terminator: the claimed 5-line lookahead would
reach and stop at that terminator line, but the code appends only the 4
lines `start_idx + 1 .. start_idx + 4` and returns an accumulation that
never reaches the terminator. -/
theorem extract_variable_declaration_window_cex :
    extract_variable_declaration ["int x =", "1", "+2", "+3", "+4", "5;"] 1 =
      "int x =\n1\n+2\n+3\n+4" ∧
    pyEndsWith (pyStrip "5;") ";" = true ∧
    pyEndsWith (pyStrip "int x =\n1\n+2\n+3\n+4") ";" = false := by
  refine ⟨rfl, rfl, rfl⟩

theorem extract_variable_declaration_spec_witness :
    extract_variable_declaration ["int x = 1;", "y"] 1 = "int x = 1;" ∧
    extract_variable_declaration ["int x =", "1;", "z"] 1 =
      joinNL ("int x =" ::
        (((["int x =", "1;", "z"] : List String).drop 1).take 4).take 1) := by
  constructor
  · exact extract_variable_declaration_spec.1 ["int x = 1;", "y"] 1 "int x = 1;" rfl rfl
  · exact extract_variable_declaration_spec.2.2 ["int x =", "1;", "z"] 1 "int x =" 0 "1;"
      rfl rfl rfl rfl
      (by intro k hk lk hlk; exact absurd hk (Nat.not_lt_zero k))

/-- Kernel-computable substring test, modelling the Python operator
`needle in haystack` on strings. -/
def pyContains (haystack needle : String) : Bool :=
  (haystack.toList.tails).any (fun t => List.isPrefixOf needle.toList t)

/-- Python `s[1:]` and friends over the character list. -/
def pyDropChars (s : String) (n : Nat) : String := String.mk (s.toList.drop n)

/-- ASCII lowering of one character (the catalog entries compared against
`file_path.lower()` are all ASCII). -/
def lowerChar (c : Char) : Char :=
  if 65 ≤ c.toNat && c.toNat ≤ 90 then Char.ofNat (c.toNat + 32) else c

/-- Python `str.lower()` restricted to ASCII case folding. -/
def pyLower (s : String) : String := String.mk (s.toList.map lowerChar)

/-- The `skip_patterns` list defined inside `ASTParser.parse_project`
(`ast_parser.py` lines 140-152). -/
def skip_patterns : List String :=
  ["node_modules", ".git", ".svn", ".hg", ".bzr",
   "__pycache__", ".pytest_cache", ".mypy_cache",
   "target", "build", "dist", "out", "bin",
   ".DS_Store", "Thumbs.db", ".idea", ".vscode",
   "*.log", "*.tmp", "*.temp", "*.bak", "*.backup",
   "*.min.js", "*.min.css", "*.map",
   "*.png", "*.jpg", "*.jpeg", "*.gif", "*.bmp", "*.ico",
   "*.mp3", "*.mp4", "*.avi", "*.mov", "*.wmv",
   "*.zip", "*.tar", "*.gz", "*.rar", "*.7z",
   "*.pdf", "*.doc", "*.docx", "*.xls", "*.xlsx",
   "*.ppt", "*.pptx", "*.odt", "*.ods", "*.odp"]

/-- Embedding of `ASTParser._should_skip_file(file_path, skip_patterns)`
(`ast_parser.py` lines 206-225): a pattern starting with `*.` is a suffix
test of `pattern[1:]` against the whole path string; any other pattern
starting with `*` is a substring test of `pattern[1:]`; every remaining
pattern is a raw substring test against the whole path string.  The file is
skipped as soon as any pattern matches. -/
def should_skip_file (filePath : String) (skipPatterns : List String) : Bool :=
  skipPatterns.any fun pattern =>
    if pyStartsWith pattern "*." then pyEndsWith filePath (pyDropChars pattern 1)
    else if pyStartsWith pattern "*" then pyContains filePath (pyDropChars pattern 1)
    else pyContains filePath pattern

theorem pyStartsWith_star_of_stardot (p : String)
    (h : pyStartsWith p "*." = true) : pyStartsWith p "*" = true := by
  unfold pyStartsWith at h ⊢
  cases hp : p.toList with
  | nil => rw [hp] at h; simp [List.isPrefixOf] at h
  | cons c rest =>
    rw [hp] at h
    simp [List.isPrefixOf] at h ⊢
    exact h.1

/-- C10.  The discovery filter `_should_skip_file`: a skip pattern that
does not begin with `*` excludes every file whose full path string contains
the pattern as a raw substring anywhere (first conjunct); a `*.ext` pattern
is a suffix test of `.ext` against the whole path (second conjunct); in
particular a path containing `about` is skipped with the standard pattern
list because `about` contains the build-output pattern `out` (third and
fourth conjuncts). -/
theorem should_skip_file_substring_spec :
    (∀ (filePath pattern : String) (pats : List String),
      pattern ∈ pats →
      pyStartsWith pattern "*" = false →
      pyContains filePath pattern = true →
      should_skip_file filePath pats = true) ∧
    (∀ (filePath pattern : String) (pats : List String),
      pattern ∈ pats →
      pyStartsWith pattern "*." = true →
      pyEndsWith filePath (pyDropChars pattern 1) = true →
      should_skip_file filePath pats = true) ∧
    should_skip_file "src/about.py" skip_patterns = true ∧
    pyContains "src/about.py" "out" = true := by
  refine ⟨?_, ?_, by rfl, by rfl⟩
  · intro filePath pattern pats hmem hstar hsub
    apply List.any_eq_true.mpr
    refine ⟨pattern, hmem, ?_⟩
    have hdot : pyStartsWith pattern "*." = false := by
      cases hsd : pyStartsWith pattern "*." with
      | false => rfl
      | true => rw [pyStartsWith_star_of_stardot pattern hsd] at hstar; exact hstar
    simp [hdot, hstar, hsub]
  · intro filePath pattern pats hmem hdot hsuf
    apply List.any_eq_true.mpr
    refine ⟨pattern, hmem, ?_⟩
    simp [hdot, hsuf]

theorem should_skip_file_substring_spec_witness :
    should_skip_file "src/about.py" skip_patterns = true :=
  should_skip_file_substring_spec.1 "src/about.py" "out" skip_patterns
    (by decide) (by rfl) (by rfl)

/-- Python tuple-`endswith`: true when the string ends with any of the
listed suffixes. -/
def anyEndsWith (f : String) (suffixes : List String) : Bool :=
  suffixes.any (fun s => pyEndsWith f s)

/-- Embedding of `ASTParser._detect_language_from_file(file_path,
default_language)` (`ast_parser.py` lines 372-458): the lowered full path
is tested first against the extension (`endswith`) groups in source order,
then against the exact-name groups (equality of the whole lowered path with
a catalog filename), and finally falls back to the caller's default
language. -/
def detect_language_from_file (filePath defaultLanguage : String) : String :=
  let f := pyLower filePath
  if anyEndsWith f [".py", ".pyw", ".pyi", ".pyx", ".pxd", ".pxi"] then "python"
  else if anyEndsWith f [".java", ".jav"] then "java"
  else if anyEndsWith f [".js", ".jsx", ".mjs", ".cjs"] then "javascript"
  else if anyEndsWith f [".ts", ".tsx", ".mts", ".cts"] then "typescript"
  else if anyEndsWith f [".cbl", ".cob", ".cpy", ".cobol"] then "cobol"
  else if anyEndsWith f [".cpp", ".cc", ".cxx", ".c++", ".h", ".hpp", ".hxx", ".hh", ".h++"] then "cpp"
  else if anyEndsWith f [".c", ".h"] then "c"
  else if anyEndsWith f [".go"] then "go"
  else if anyEndsWith f [".rs"] then "rust"
  else if anyEndsWith f [".php", ".php3", ".php4", ".php5", ".phtml"] then "php"
  else if anyEndsWith f [".rb", ".rbw"] then "ruby"
  else if anyEndsWith f [".sql"] then "sql"
  else if anyEndsWith f [".html", ".htm", ".xhtml"] then "html"
  else if anyEndsWith f [".css", ".scss", ".sass", ".less"] then "css"
  else if anyEndsWith f [".xml", ".xsd", ".xsl"] then "xml"
  else if anyEndsWith f [".json"] then "json"
  else if anyEndsWith f [".yml", ".yaml"] then "yaml"
  else if anyEndsWith f [".toml"] then "toml"
  else if anyEndsWith f [".ini", ".cfg", ".conf"] then "ini"
  else if anyEndsWith f [".md", ".markdown"] then "markdown"
  else if (["dockerfile", ".dockerfile"] : List String).contains f then "dockerfile"
  else if (["makefile", ".mk", ".make"] : List String).contains f then "makefile"
  else if (["cmakelists.txt", ".cmake"] : List String).contains f then "cmake"
  else if (["package.json", "package-lock.json", "yarn.lock", "pnpm-lock.yaml"] : List String).contains f then "npm"
  else if (["requirements.txt", "setup.py", "pyproject.toml", "pipfile", "poetry.lock"] : List String).contains f then "pip"
  else if (["cargo.toml", "cargo.lock"] : List String).contains f then "cargo"
  else if (["go.mod", "go.sum"] : List String).contains f then "go_mod"
  else if (["composer.json", "composer.lock"] : List String).contains f then "composer"
  else if (["gemfile", "gemfile.lock"] : List String).contains f then "gemfile"
  else if (["pubspec.yaml", "pubspec.lock"] : List String).contains f then "pubspec"
  else if anyEndsWith f [".cabal"] then "cabal"
  else if (["stack.yaml"] : List String).contains f then "stack"
  else if (["mix.exs", "mix.lock"] : List String).contains f then "mix"
  else if (["rebar.config"] : List String).contains f then "rebar"
  else if (["project.clj"] : List String).contains f then "leiningen"
  else if (["build.sbt", "project/build.properties"] : List String).contains f then "sbt"
  else if (["gradlew", "gradlew.bat"] : List String).contains f then "gradle_wrapper"
  else if (["mvnw", "mvnw.cmd"] : List String).contains f then "maven_wrapper"
  else if (["pom.xml", "build.gradle", "gradle.properties", "settings.gradle"] : List String).contains f then "gradle"
  else if (["maven"] : List String).contains f then "maven"
  else defaultLanguage

/-- Disjunction of every extension and exact-name test performed by
`_detect_language_from_file`, in source order: a lowered path on which this
is `false` matches no extension and no catalog filename. -/
def detect_any_match (f : String) : Bool :=
  anyEndsWith f [".py", ".pyw", ".pyi", ".pyx", ".pxd", ".pxi"] ||
  anyEndsWith f [".java", ".jav"] ||
  anyEndsWith f [".js", ".jsx", ".mjs", ".cjs"] ||
  anyEndsWith f [".ts", ".tsx", ".mts", ".cts"] ||
  anyEndsWith f [".cbl", ".cob", ".cpy", ".cobol"] ||
  anyEndsWith f [".cpp", ".cc", ".cxx", ".c++", ".h", ".hpp", ".hxx", ".hh", ".h++"] ||
  anyEndsWith f [".c", ".h"] ||
  anyEndsWith f [".go"] ||
  anyEndsWith f [".rs"] ||
  anyEndsWith f [".php", ".php3", ".php4", ".php5", ".phtml"] ||
  anyEndsWith f [".rb", ".rbw"] ||
  anyEndsWith f [".sql"] ||
  anyEndsWith f [".html", ".htm", ".xhtml"] ||
  anyEndsWith f [".css", ".scss", ".sass", ".less"] ||
  anyEndsWith f [".xml", ".xsd", ".xsl"] ||
  anyEndsWith f [".json"] ||
  anyEndsWith f [".yml", ".yaml"] ||
  anyEndsWith f [".toml"] ||
  anyEndsWith f [".ini", ".cfg", ".conf"] ||
  anyEndsWith f [".md", ".markdown"] ||
  (["dockerfile", ".dockerfile"] : List String).contains f ||
  (["makefile", ".mk", ".make"] : List String).contains f ||
  (["cmakelists.txt", ".cmake"] : List String).contains f ||
  (["package.json", "package-lock.json", "yarn.lock", "pnpm-lock.yaml"] : List String).contains f ||
  (["requirements.txt", "setup.py", "pyproject.toml", "pipfile", "poetry.lock"] : List String).contains f ||
  (["cargo.toml", "cargo.lock"] : List String).contains f ||
  (["go.mod", "go.sum"] : List String).contains f ||
  (["composer.json", "composer.lock"] : List String).contains f ||
  (["gemfile", "gemfile.lock"] : List String).contains f ||
  (["pubspec.yaml", "pubspec.lock"] : List String).contains f ||
  anyEndsWith f [".cabal"] ||
  (["stack.yaml"] : List String).contains f ||
  (["mix.exs", "mix.lock"] : List String).contains f ||
  (["rebar.config"] : List String).contains f ||
  (["project.clj"] : List String).contains f ||
  (["build.sbt", "project/build.properties"] : List String).contains f ||
  (["gradlew", "gradlew.bat"] : List String).contains f ||
  (["mvnw", "mvnw.cmd"] : List String).contains f ||
  (["pom.xml", "build.gradle", "gradle.properties", "settings.gradle"] : List String).contains f ||
  (["maven"] : List String).contains f

/-- C9 (amended).  Language detection `_detect_language_from_file` applies,
in order: extension (suffix) match over the lowered full path in a fixed
chain order first, then exact whole-path matches against catalog filenames,
then the caller's default; a path matching no extension and no filename
always yields the default language and never an error (first conjunct —
total function, no exception path).  The original claim's filename-first
priority is refuted by the counterexample theorem; the remaining conjuncts
exhibit the actual priority: `cargo.toml` hits the `.toml` extension before
its exact-name entry, while `go.mod` (no matching extension) reaches its
exact-name entry. -/
theorem detect_language_from_file_spec :
    (∀ (filePath defaultLanguage : String),
      detect_any_match (pyLower filePath) = false →
      detect_language_from_file filePath defaultLanguage = defaultLanguage) ∧
    (∀ d : String, detect_language_from_file "cargo.toml" d = "toml") ∧
    (∀ d : String, detect_language_from_file "go.mod" d = "go_mod") := by
  refine ⟨?_, fun d => rfl, fun d => rfl⟩
  intro filePath defaultLanguage h
  simp only [detect_any_match, Bool.or_eq_false_iff] at h
  obtain ⟨⟨⟨⟨⟨⟨⟨⟨⟨⟨⟨⟨⟨⟨⟨⟨⟨⟨⟨⟨⟨⟨⟨⟨⟨⟨⟨⟨⟨⟨⟨⟨⟨⟨⟨⟨⟨⟨⟨h1, h2⟩, h3⟩, h4⟩, h5⟩, h6⟩, h7⟩, h8⟩, h9⟩, h10⟩, h11⟩, h12⟩, h13⟩, h14⟩, h15⟩, h16⟩, h17⟩, h18⟩, h19⟩, h20⟩, h21⟩, h22⟩, h23⟩, h24⟩, h25⟩, h26⟩, h27⟩, h28⟩, h29⟩, h30⟩, h31⟩, h32⟩, h33⟩, h34⟩, h35⟩, h36⟩, h37⟩, h38⟩, h39⟩, h40⟩ := h
  simp only [detect_language_from_file, h1, h2, h3, h4, h5, h6, h7, h8, h9, h10, h11, h12,
    h13, h14, h15, h16, h17, h18, h19, h20, h21, h22, h23, h24, h25, h26, h27, h28, h29,
    h30, h31, h32, h33, h34, h35, h36, h37, h38, h39, h40, Bool.false_eq_true, if_false]

/-- C9 counterexample.  The claim requires the exact filename table to win
before extension matching, so `package.json` would have to resolve to its
catalog entry `npm`; the code tests `endswith` groups first, and the
`.json` suffix fires before the `package.json` name is ever compared, so
detection returns `json`, not `npm` — and similarly for the claim's other
cited filenames with known extensions. -/
theorem detect_language_priority_cex :
    detect_language_from_file "package.json" "java" = "json" ∧
    ("json" = "npm") = False := by
  exact ⟨rfl, by decide⟩

theorem detect_language_from_file_spec_witness :
    detect_language_from_file "weird.xyz" "python" = "python" ∧
    detect_language_from_file "cargo.toml" "java" = "toml" :=
  ⟨detect_language_from_file_spec.1 "weird.xyz" "python" (by rfl),
   detect_language_from_file_spec.2.1 "java"⟩

/-- Decorator node of the external CPython `ast` module, restricted to the
two attributes the extractor reads: the optional `id` (guarded by `hasattr`
in the source) and the line number. -/
structure PyDecorator where
  id : Option String
  lineno : Nat

/-- `ast.FunctionDef` node restricted to the attributes read by
`_parse_python_file`. -/
structure PyFunctionDef where
  name : String
  lineno : Nat
  end_lineno : Nat
  args : List String
  decorator_list : List PyDecorator

/-- `ast.ClassDef` node restricted to the attributes read by
`_parse_python_file`; `bases` holds `base.id` when the base node has one,
`methods` the `FunctionDef` children of the class body. -/
structure PyClassDef where
  name : String
  lineno : Nat
  end_lineno : Nat
  bases : List (Option String)
  methods : List PyFunctionDef
  decorator_list : List PyDecorator

/-- `ast.Assign` node restricted to the attributes read by
`_parse_python_file`; `targetNames` holds the ids of the `ast.Name`
targets (other target forms are skipped by the source), `valueRepr` the
`ast.unparse` rendering of the assigned value. -/
structure PyAssign where
  targetNames : List String
  lineno : Nat
  end_lineno : Nat
  valueRepr : String

/-- Outcome of the external `ast.parse`/`ast.walk` traversal as consumed by
`_parse_python_file`: the import strings and the function, class and
assignment nodes in walk order.  The traversal itself belongs to CPython
and is not re-verified here; the extractor is modelled as a function of
this outcome (`none` models `ast.parse` raising, e.g. on a syntax error). -/
structure PyAst where
  imports : List String
  functionDefs : List PyFunctionDef
  classDefs : List PyClassDef
  assigns : List PyAssign

/-- Normalized per-file structural record (`ast_parser.py` output schema).
The `ast_tree` field — the `_ast_to_dict` serialization of the CPython
tree object — is outside the model; the claims concern the remaining
fields.  The entry types vary per extractor, hence the parameters; the Python
output key `variables` is named `vars` here because `variables` is a Lean
keyword. -/
structure StructuralRecord (α β γ : Type) where
  file_path : String
  language : String
  imports : List String
  functions : List α
  classes : List β
  vars : List γ
  full_source_code : String

/-- Function entry produced by the Python extractor. -/
structure FunctionRecord where
  name : String
  line : Nat
  args : List String
  decorators : List String
  body : String
  full_code : String

/-- Method entry nested in a class entry of the Python extractor. -/
structure MethodRecord where
  name : String
  line : Nat
  body : String

/-- Class entry produced by the Python extractor. -/
structure ClassRecord where
  name : String
  line : Nat
  bases : List String
  methods : List MethodRecord
  body : String
  full_code : String

/-- Variable entry produced by the Python extractor. -/
structure VariableRecord where
  name : String
  line : Nat
  value : String
  full_assignment : String

/-- Statement entry produced by the generic line-as-statement extractor. -/
structure StatementRecord where
  name : String
  line : Nat
  type : String
  full_code : String

/-- Embedding of `ASTParser._extract_node_source(content, node)`
(`ast_parser.py` lines 1143-1154) for nodes carrying `lineno` and
`end_lineno`: the newline-join of `content.split(newline)[lineno - 1 :
end_lineno]`. -/
def extract_node_source (content : String) (lineno end_lineno : Nat) : String :=
  joinNL (((splitLines content).drop (lineno - 1)).take (end_lineno - (lineno - 1)))

/-- Embedding of `ASTParser._get_full_function_code(content, node)`
(`ast_parser.py` lines 1156-1170): the span additionally starts at the
first decorator line when decorators are present. -/
def get_full_function_code (content : String) (node : PyFunctionDef) : String :=
  let startIdx :=
    match node.decorator_list with
    | [] => node.lineno - 1
    | d :: _ => min (node.lineno - 1) (d.lineno - 1)
  joinNL (((splitLines content).drop startIdx).take (node.end_lineno - startIdx))

/-- Embedding of `ASTParser._get_full_class_code(content, node)`
(`ast_parser.py` lines 1172-1186). -/
def get_full_class_code (content : String) (node : PyClassDef) : String :=
  let startIdx :=
    match node.decorator_list with
    | [] => node.lineno - 1
    | d :: _ => min (node.lineno - 1) (d.lineno - 1)
  joinNL (((splitLines content).drop startIdx).take (node.end_lineno - startIdx))

/-- Embedding of `ASTParser._parse_python_file(file_path, content)`
(`ast_parser.py` lines 460-540) as a function of the external parse
outcome: when `ast.parse` raises (outcome `none`) the broad
`except ... return None` reports no record at all; otherwise the record is
built from the walked nodes, with `full_source_code` set to the exact
`content` argument. -/
def parse_python_file (file_path content : String) (parsed : Option PyAst) :
    Option (StructuralRecord FunctionRecord ClassRecord VariableRecord) :=
  match parsed with
  | none => none
  | some t =>
    some {
      file_path := file_path
      language := "python"
      imports := t.imports
      functions := t.functionDefs.map (fun node =>
        { name := node.name
          line := node.lineno
          args := node.args
          decorators := node.decorator_list.filterMap (fun d => d.id)
          body := extract_node_source content node.lineno node.end_lineno
          full_code := get_full_function_code content node })
      classes := t.classDefs.map (fun node =>
        { name := node.name
          line := node.lineno
          bases := node.bases.filterMap (fun b => b)
          methods := node.methods.map (fun child =>
            { name := child.name
              line := child.lineno
              body := extract_node_source content child.lineno child.end_lineno })
          body := extract_node_source content node.lineno node.end_lineno
          full_code := get_full_class_code content node })
      vars := (t.assigns.map (fun node =>
        node.targetNames.map (fun tn =>
          ({ name := tn
             line := node.lineno
             value := node.valueRepr
             full_assignment := extract_node_source content node.lineno node.end_lineno }
            : VariableRecord)))).flatten
      full_source_code := content }

/-- Embedding of `ASTParser._parse_generic_file(file_path, content,
language)` (`ast_parser.py` lines 2550-2595): every non-blank stripped
line becomes a statement-typed function entry; imports, classes and
variables stay empty; `full_source_code` is the exact `content` argument.
The body cannot raise, so the Python `except` branch is dead and the
function totally returns a record. -/
def parse_generic_file (file_path content language : String) :
    StructuralRecord StatementRecord StatementRecord StatementRecord :=
  { file_path := file_path
    language := language
    imports := []
    functions := (List.enumFrom 1 (splitLines content)).filterMap (fun p =>
      let st := pyStrip p.2
      if st = "" then none
      else some { name := "line_" ++ toString p.1, line := p.1,
                  type := "statement", full_code := st })
    classes := []
    vars := []
    full_source_code := content }

/-- C1.  Round-trip of the verbatim text: whenever the Python extractor
produces a record, its `full_source_code` equals the exact content string
handed in, and the generic extractor always stores the exact content
string — both extractors end their record literally with
`full_source_code: content`. -/
theorem full_source_code_roundtrip :
    (∀ (fp content : String) (t : PyAst)
      (r : StructuralRecord FunctionRecord ClassRecord VariableRecord),
      parse_python_file fp content (some t) = some r →
      r.full_source_code = content) ∧
    (∀ (fp content lang : String),
      (parse_generic_file fp content lang).full_source_code = content) := by
  constructor
  · intro fp content t r h
    injection h with h2
    subst h2
    rfl
  · intro fp content lang
    rfl

/-- Example parse outcome used by the round-trip witness. -/
def examplePyAst : PyAst :=
  { imports := ["os"], functionDefs := [], classDefs := [], assigns := [] }

/-- Record produced by the Python extractor on the witness input. -/
def examplePyRecord : StructuralRecord FunctionRecord ClassRecord VariableRecord :=
  { file_path := "a.py", language := "python", imports := ["os"], functions := [],
    classes := [], vars := [], full_source_code := "x = 1" }

theorem full_source_code_roundtrip_witness :
    parse_python_file "a.py" "x = 1" (some examplePyAst) = some examplePyRecord ∧
    examplePyRecord.full_source_code = "x = 1" :=
  ⟨rfl, full_source_code_roundtrip.1 "a.py" "x = 1" examplePyAst examplePyRecord rfl⟩

/-- C2 counterexample.  On an internal failure — `ast.parse` raising on the
syntactically invalid text — the Python extractor returns `None`, dropping
the file, and in particular does not return a Structural Record with empty
structural lists and the verbatim text as the claim states. -/
theorem parse_python_failure_cex :
    parse_python_file "bad.py" "def f(:" none = none ∧
    ¬ (parse_python_file "bad.py" "def f(:" none =
        some { file_path := "bad.py", language := "python", imports := [], functions := [],
               classes := [], vars := [], full_source_code := "def f(:" }) := by
  refine ⟨rfl, ?_⟩
  intro h
  simp [parse_python_file] at h

/-- C2 (amended).  No extractor raises: each one is wrapped in a broad
`except` whose handler returns.  On an internal failure, however, the
handler returns the explicit no-record value `None` — the file is dropped
(the orchestrator logs and continues) — rather than a record with empty
lists; it is the heuristic/generic discipline that, on unrecognized input,
still returns a record carrying the verbatim text with empty imports,
classes and variables. -/
theorem extractor_failure_behavior :
    (∀ (fp content : String), parse_python_file fp content none = none) ∧
    (∀ (fp content lang : String),
      (parse_generic_file fp content lang).full_source_code = content ∧
      (parse_generic_file fp content lang).imports = [] ∧
      (parse_generic_file fp content lang).classes = [] ∧
      (parse_generic_file fp content lang).vars = []) :=
  ⟨fun _ _ => rfl, fun _ _ _ => ⟨rfl, rfl, rfl, rfl⟩⟩

/-- JSON value as produced by `json.loads`; number values keep their
source lexeme (the recovery chain never inspects numeric values). -/
inductive JsonValue where
  | null
  | bool (b : Bool)
  | num (lexeme : String)
  | str (s : String)
  | arr (elems : List JsonValue)
  | obj (pairs : List (String × JsonValue))

/-- Whitespace skipped by the `json` module lexer (exactly these four). -/
def isJsonWs (c : Char) : Bool := c = ' ' || c = '\t' || c = '\n' || c = '\r'

/-- Drop leading JSON whitespace. -/
def skipJsonWs (cs : List Char) : List Char := cs.dropWhile isJsonWs

/-- Hexadecimal digit test for `\uXXXX` escapes. -/
def isHexDigit (c : Char) : Bool :=
  c.isDigit || (97 ≤ c.toNat && c.toNat ≤ 102) || (65 ≤ c.toNat && c.toNat ≤ 70)

/-- Value of a hexadecimal digit. -/
def hexVal (c : Char) : Nat :=
  if c.isDigit then c.toNat - 48
  else if 97 ≤ c.toNat then c.toNat - 87
  else c.toNat - 55

/-- String body lexer of the `json` module, entered after the opening
quote: returns the decoded characters and the rest after the closing
quote.  Raw control characters and invalid escapes fail (strict mode);
`\uXXXX` escapes are decoded with surrogate-pair combination.  (Python
keeps lone surrogates in the result; a Lean `Char` cannot hold one, so the
model maps lone surrogates to U+FFFD — inputs without lone surrogates are
unaffected.) -/
def scanJString : Nat → List Char → Option (List Char × List Char)
  | 0, _ => none
  | fuel + 1, cs =>
    match cs with
    | [] => none
    | c :: rest =>
      if c = dquoteChar then some ([], rest)
      else if c = bslashChar then
        match rest with
        | [] => none
        | e :: rest2 =>
          if e = dquoteChar then
            (scanJString fuel rest2).map (fun p => (dquoteChar :: p.1, p.2))
          else if e = bslashChar then
            (scanJString fuel rest2).map (fun p => (bslashChar :: p.1, p.2))
          else if e = '/' then (scanJString fuel rest2).map (fun p => ('/' :: p.1, p.2))
          else if e = 'b' then (scanJString fuel rest2).map (fun p => (Char.ofNat 8 :: p.1, p.2))
          else if e = 'f' then (scanJString fuel rest2).map (fun p => (Char.ofNat 12 :: p.1, p.2))
          else if e = 'n' then (scanJString fuel rest2).map (fun p => ('\n' :: p.1, p.2))
          else if e = 'r' then (scanJString fuel rest2).map (fun p => ('\r' :: p.1, p.2))
          else if e = 't' then (scanJString fuel rest2).map (fun p => ('\t' :: p.1, p.2))
          else if e = 'u' then
            match rest2 with
            | h1 :: h2 :: h3 :: h4 :: rest3 =>
              if isHexDigit h1 && isHexDigit h2 && isHexDigit h3 && isHexDigit h4 then
                let code := hexVal h1 * 4096 + hexVal h2 * 256 + hexVal h3 * 16 + hexVal h4
                if 55296 ≤ code && code < 56320 then
                  match rest3 with
                  | b1 :: u1 :: g1 :: g2 :: g3 :: g4 :: rest4 =>
                    if b1 = bslashChar && u1 = 'u' && isHexDigit g1 && isHexDigit g2 &&
                        isHexDigit g3 && isHexDigit g4 then
                      let code2 := hexVal g1 * 4096 + hexVal g2 * 256 + hexVal g3 * 16 + hexVal g4
                      if 56320 ≤ code2 && code2 ≤ 57343 then
                        (scanJString fuel rest4).map (fun p =>
                          (Char.ofNat (65536 + (code - 55296) * 1024 + (code2 - 56320)) :: p.1,
                           p.2))
                      else (scanJString fuel rest3).map (fun p => (Char.ofNat 65533 :: p.1, p.2))
                    else (scanJString fuel rest3).map (fun p => (Char.ofNat 65533 :: p.1, p.2))
                  | _ => (scanJString fuel rest3).map (fun p => (Char.ofNat 65533 :: p.1, p.2))
                else if 56320 ≤ code && code ≤ 57343 then
                  (scanJString fuel rest3).map (fun p => (Char.ofNat 65533 :: p.1, p.2))
                else (scanJString fuel rest3).map (fun p => (Char.ofNat code :: p.1, p.2))
              else none
            | _ => none
          else none
      else if c.toNat < 32 then none
      else (scanJString fuel rest).map (fun p => (c :: p.1, p.2))

/-- Fraction and exponent continuation of the number lexer. -/
def jNumberTail (intLex : List Char) (rest : List Char) : Option (JsonValue × List Char) :=
  let fracSplit : List Char × List Char :=
    match rest with
    | c :: r =>
      if c = '.' then
        let ds := r.takeWhile Char.isDigit
        if ds.isEmpty then ([], rest) else ('.' :: ds, r.dropWhile Char.isDigit)
      else ([], rest)
    | [] => ([], rest)
  let afterFrac := fracSplit.2
  let expSplit : List Char × List Char :=
    match afterFrac with
    | c :: r =>
      if c = 'e' || c = 'E' then
        let signPart : List Char × List Char :=
          match r with
          | s :: r2 => if s = '+' || s = '-' then ([s], r2) else ([], r)
          | [] => ([], r)
        let ds := signPart.2.takeWhile Char.isDigit
        if ds.isEmpty then ([], afterFrac)
        else (c :: (signPart.1 ++ ds), signPart.2.dropWhile Char.isDigit)
      else ([], afterFrac)
    | [] => ([], afterFrac)
  some (JsonValue.num (String.mk (intLex ++ fracSplit.1 ++ expSplit.1)), expSplit.2)

/-- Number lexer of the `json` module: the regex
`-?(0|[1-9][0-9]*)(\.[0-9]+)?([eE][+-]?[0-9]+)?` matched greedily; the
lexeme is kept verbatim. -/
def jNumber (cs : List Char) : Option (JsonValue × List Char) :=
  let sign : List Char × List Char :=
    match cs with
    | c :: rest => if c = '-' then (['-'], rest) else ([], cs)
    | [] => ([], cs)
  match sign.2 with
  | [] => none
  | d :: rest1 =>
    if d = '0' then jNumberTail (sign.1 ++ ['0']) rest1
    else if d.isDigit then
      jNumberTail (sign.1 ++ (d :: rest1).takeWhile Char.isDigit)
        ((d :: rest1).dropWhile Char.isDigit)
    else none

mutual

/-- Value parser of the `json` module: skips whitespace, dispatches on the
first character (string, object, array, the `true`/`false`/`null`
literals, the `NaN`/`Infinity`/`-Infinity` extensions Python accepts by
default, or a number), and returns the value with the unconsumed rest. -/
def jValue : Nat → List Char → Option (JsonValue × List Char)
  | 0, _ => none
  | fuel + 1, cs =>
    match skipJsonWs cs with
    | [] => none
    | c :: rest =>
      if c = dquoteChar then
        (scanJString (rest.length + 1) rest).map (fun p => (JsonValue.str (String.mk p.1), p.2))
      else if c = lbraceChar then jObjBody fuel rest
      else if c = '[' then jArrBody fuel rest
      else if c = 't' then
        if List.isPrefixOf ['r', 'u', 'e'] rest then some (JsonValue.bool true, rest.drop 3)
        else none
      else if c = 'f' then
        if List.isPrefixOf ['a', 'l', 's', 'e'] rest then some (JsonValue.bool false, rest.drop 4)
        else none
      else if c = 'n' then
        if List.isPrefixOf ['u', 'l', 'l'] rest then some (JsonValue.null, rest.drop 3)
        else none
      else if c = 'N' then
        if List.isPrefixOf ['a', 'N'] rest then some (JsonValue.num "NaN", rest.drop 2)
        else none
      else if c = 'I' then
        if List.isPrefixOf ['n', 'f', 'i', 'n', 'i', 't', 'y'] rest then
          some (JsonValue.num "Infinity", rest.drop 7)
        else none
      else if c = '-' then
        if List.isPrefixOf ['I', 'n', 'f', 'i', 'n', 'i', 't', 'y'] rest then
          some (JsonValue.num "-Infinity", rest.drop 8)
        else jNumber (c :: rest)
      else if c.isDigit then jNumber (c :: rest)
      else none

/-- Object parser entered after the opening brace: an immediate closing
brace gives the empty object, otherwise a quoted key must follow. -/
def jObjBody : Nat → List Char → Option (JsonValue × List Char)
  | 0, _ => none
  | fuel + 1, cs =>
    match skipJsonWs cs with
    | [] => none
    | c :: rest =>
      if c = rbraceChar then some (JsonValue.obj [], rest)
      else if c = dquoteChar then jMembers fuel (c :: rest) []
      else none

/-- Member loop of the object parser, positioned at the quote of the next
key: key, colon, value, then either a comma (next member must again start
with a quote — a trailing comma therefore fails) or the closing brace. -/
def jMembers : Nat → List Char → List (String × JsonValue) →
    Option (JsonValue × List Char)
  | 0, _, _ => none
  | fuel + 1, cs, acc =>
    match cs with
    | [] => none
    | c :: rest =>
      if c = dquoteChar then
        match scanJString (rest.length + 1) rest with
        | none => none
        | some (key, rest2) =>
          match skipJsonWs rest2 with
          | ':' :: rest3 =>
            match jValue fuel rest3 with
            | none => none
            | some (v, rest4) =>
              match skipJsonWs rest4 with
              | ',' :: rest5 => jMembers fuel (skipJsonWs rest5) (acc ++ [(String.mk key, v)])
              | c2 :: rest5 =>
                if c2 = rbraceChar then some (JsonValue.obj (acc ++ [(String.mk key, v)]), rest5)
                else none
              | [] => none
          | _ => none
      else none

/-- Array parser entered after the opening bracket. -/
def jArrBody : Nat → List Char → Option (JsonValue × List Char)
  | 0, _ => none
  | fuel + 1, cs =>
    match skipJsonWs cs with
    | [] => none
    | c :: rest =>
      if c = ']' then some (JsonValue.arr [], rest)
      else jElems fuel (c :: rest) []

/-- Element loop of the array parser. -/
def jElems : Nat → List Char → List JsonValue → Option (JsonValue × List Char)
  | 0, _, _ => none
  | fuel + 1, cs, acc =>
    match jValue fuel cs with
    | none => none
    | some (v, rest) =>
      match skipJsonWs rest with
      | ',' :: rest2 => jElems fuel rest2 (acc ++ [v])
      | c2 :: rest2 => if c2 = ']' then some (JsonValue.arr (acc ++ [v]), rest2) else none
      | [] => none

end

/-- Embedding of `json.loads`: parse one value and require only whitespace
to remain.  The fuel `3 * length + 16` strictly dominates the recursion
depth, every recursive descent step consuming input. -/
def json_loads (s : String) : Option JsonValue :=
  let cs := s.toList
  match jValue (3 * cs.length + 16) cs with
  | some (v, rest) => if skipJsonWs rest = [] then some v else none
  | none => none

/-- Index of the first occurrence of a character, modelling `str.find`. -/
def firstIdxOf : Char → List Char → Option Nat
  | _, [] => none
  | c, x :: xs => if x = c then some 0 else (firstIdxOf c xs).map (fun i => i + 1)

/-- Index of the last occurrence of a character, modelling `str.rfind`. -/
def lastIdxOf (c : Char) (cs : List Char) : Option Nat :=
  (firstIdxOf c cs.reverse).map (fun k => cs.length - 1 - k)

/-- Candidate substring of strategy 1 of `_parse_single_file_conversion`
(`code_converter.py` lines 780-786): the slice from the first opening
brace through the last closing brace; `none` when either is absent
(`start_idx != -1 and end_idx != 0` fails).  Python slicing yields the
empty string when the last closing brace precedes the first opening brace,
as does the clipped `take` here. -/
def brace_candidate (s : String) : Option String :=
  let cs := s.toList
  match firstIdxOf lbraceChar cs, lastIdxOf rbraceChar cs with
  | some i, some j => some (String.mk ((cs.drop i).take (j + 1 - i)))
  | _, _ => none

/-- Characters up to (not including) the first occurrence of `stop`;
returns `none` when `stop` never occurs, otherwise the group and the rest
beginning at the `stop` character. -/
def scanToChar (stop : Char) : List Char → Option (List Char × List Char)
  | [] => none
  | c :: rest =>
    if c = stop then some ([], c :: rest)
    else (scanToChar stop rest).map (fun p => (c :: p.1, p.2))

/-- Literal-prefix matcher: the rest after the literal, or `none`. -/
def stripPrefixList (pre l : List Char) : Option (List Char) :=
  if List.isPrefixOf pre l then some (l.drop pre.length) else none

/-- Single match attempt of the regex
`"content":\s*"([^"]*(?:\\.[^"]*)*)"` at the head of the input.  Because
the character class `[^"]` also matches backslashes, the greedy engine
always closes the group at the first following double quote (verified
against CPython `re`); the returned triple is the consumed head (literal,
whitespace, opening quote), the group, and the rest beginning at the
closing quote. -/
def tryContentAt (cs : List Char) : Option (List Char × List Char × List Char) :=
  match stripPrefixList ("\"content\":".toList) cs with
  | none => none
  | some r1 =>
    let sp := r1.takeWhile isPySpace
    match r1.dropWhile isPySpace with
    | c :: r3 =>
      if c = dquoteChar then
        match scanToChar dquoteChar r3 with
        | some pr => some ("\"content\":".toList ++ sp ++ [dquoteChar], pr.1, pr.2)
        | none => none
      else none
    | [] => none

/-- Leftmost match of the content-field pattern (`re.search` semantics):
try each start position left to right. -/
def findContentGroup : List Char → Option (List Char × List Char × List Char)
  | [] => none
  | c :: rest =>
    match tryContentAt (c :: rest) with
    | some r => some r
    | none => (findContentGroup rest).map (fun r => (c :: r.1, r.2.1, r.2.2))

/-- Replace every occurrence of one character by a character sequence. -/
def listReplaceChar (target : Char) (rep : List Char) (l : List Char) : List Char :=
  (l.map (fun c => if c = target then rep else [c])).flatten

/-- The three `str.replace` calls applied to the matched content group by
`_fix_common_json_issues`, in source order: escape quotes (vacuous — the
group can never contain a quote), then newlines, then tabs. -/
def escapeContentGroup (g : List Char) : List Char :=
  listReplaceChar '\t' [bslashChar, 't']
    (listReplaceChar '\n' [bslashChar, 'n']
      (listReplaceChar dquoteChar [bslashChar, dquoteChar] g))

/-- Rewrite (a) of `_fix_common_json_issues` (`code_converter.py` lines
857-874): find the content field, escape embedded quotes, newlines and
tabs inside its string value, and splice the result back between the
original `match.start(1)`/`match.end(1)` positions. -/
def fix_content_field (s : String) : String :=
  match findContentGroup s.toList with
  | some r => String.mk (r.1 ++ escapeContentGroup r.2.1 ++ r.2.2)
  | none => s

/-- Rewrite (b) of `_fix_common_json_issues`:
`re.sub(',(\s*[}\]])', '\1', s)` — drop a comma whose following whitespace
run ends at a closing brace or bracket, continuing the scan after the
bracket (non-overlapping, left to right). -/
def removeTrailingCommasAux : Nat → List Char → List Char
  | 0, cs => cs
  | fuel + 1, cs =>
    match cs with
    | [] => []
    | c :: rest =>
      if c = ',' then
        let sp := rest.takeWhile isPySpace
        match rest.dropWhile isPySpace with
        | b :: r3 =>
          if b = rbraceChar || b = ']' then sp ++ b :: removeTrailingCommasAux fuel r3
          else c :: removeTrailingCommasAux fuel rest
        | [] => c :: removeTrailingCommasAux fuel rest
      else c :: removeTrailingCommasAux fuel rest

/-- Wrapper for rewrite (b) with sufficient fuel. -/
def remove_trailing_commas (s : String) : String :=
  String.mk (removeTrailingCommasAux (s.toList.length + 1) s.toList)

/-- Word character of the regex `\w` (ASCII model). -/
def isWordChar (c : Char) : Bool := c.isAlpha || c.isDigit || c = '_'

/-- Rewrite (c) of `_fix_common_json_issues`:
`re.sub('(\s*)(\w+)(\s*):', '\1"\2"\3:', s)` — wrap a maximal word run
directly preceding a colon (whitespace allowed around it) in double
quotes; the disjoint character classes make the greedy match
deterministic and the scan continues after the colon. -/
def quoteBareKeysAux : Nat → List Char → List Char
  | 0, cs => cs
  | fuel + 1, cs =>
    match cs with
    | [] => []
    | c :: rest =>
      let ws1 := (c :: rest).takeWhile isPySpace
      let r1 := (c :: rest).dropWhile isPySpace
      let w := r1.takeWhile isWordChar
      let r2 := r1.dropWhile isWordChar
      let ws2 := r2.takeWhile isPySpace
      match w, r2.dropWhile isPySpace with
      | _ :: _, ':' :: r4 =>
        ws1 ++ dquoteChar :: (w ++ dquoteChar :: (ws2 ++ ':' :: quoteBareKeysAux fuel r4))
      | _, _ => c :: quoteBareKeysAux fuel rest

/-- Wrapper for rewrite (c) with sufficient fuel. -/
def quote_bare_keys (s : String) : String :=
  String.mk (quoteBareKeysAux (s.toList.length + 1) s.toList)

/-- Embedding of `CodeConverter._fix_common_json_issues(json_str)`
(`code_converter.py` lines 851-886): rewrites (a), (b), (c) applied in
source order (the surrounding `except` is unreachable — every rewrite is
total). -/
def fix_common_json_issues (s : String) : String :=
  quote_bare_keys (remove_trailing_commas (fix_content_field s))

/-- Python `str.replace` (all occurrences, left to right,
non-overlapping) over character lists, fuelled. -/
def replaceSeq (pat rep : List Char) : Nat → List Char → List Char
  | 0, l => l
  | _ + 1, [] => []
  | fuel + 1, c :: rest =>
    if pat.isEmpty = false && List.isPrefixOf pat (c :: rest) then
      rep ++ replaceSeq pat rep fuel ((c :: rest).drop pat.length)
    else c :: replaceSeq pat rep fuel rest

/-- Python `s.replace(pat, rep)` for non-empty `pat`. -/
def pyReplace (s pat rep : String) : String :=
  String.mk (replaceSeq pat.toList rep.toList (s.toList.length + 1) s.toList)

/-- The markdown fence literal (three backticks). -/
def fenceLit : List Char := [btickChar, btickChar, btickChar]

/-- First occurrence split: the characters before the first occurrence of
`pat` and the rest after it (lazy `(.*?)` followed by a literal). -/
def findSubSplit (pat : List Char) : List Char → Option (List Char × List Char)
  | [] => if pat.isEmpty then some ([], []) else none
  | c :: rest =>
    if List.isPrefixOf pat (c :: rest) then some ([], (c :: rest).drop pat.length)
    else (findSubSplit pat rest).map (fun p => (c :: p.1, p.2))

/-- Suffixes starting right after each newline of a whitespace run
(ascending position order), each continued with the text after the run:
the backtracking choices of `\s*\n` (whose greedy engine prefers the last
newline, i.e. the reverse of this list). -/
def nlTails : List Char → List Char → List (List Char)
  | [], _ => []
  | c :: rest, after =>
    if c = '\n' then (rest ++ after) :: nlTails rest after
    else nlTails rest after

/-- First `some` of a list of options. -/
def firstSome : List (Option α) → Option α
  | [] => none
  | o :: os =>
    match o with
    | some a => some a
    | none => firstSome os

/-- Single match attempt of one alternative of the fence pattern
`` ```lang?\s*\n(.*?)\n``` `` at the head of the input: the literal, then
`\s*\n` (greedy over the newline choices of the whitespace run, backtracked
when the lazy group never finds its closing `` \n``` ``), then the group up
to the first closing `` \n``` ``. -/
def tryFenceAlt (alt : List Char) (cs : List Char) : Option (List Char) :=
  match stripPrefixList alt cs with
  | none => none
  | some r1 =>
    let sp := r1.takeWhile isPySpace
    let after := r1.dropWhile isPySpace
    firstSome (((nlTails sp after).reverse).map (fun start =>
      (findSubSplit ('\n' :: fenceLit) start).map (fun p => p.1)))

/-- Alternation of the fence pattern: the regex `X?` on the final literal
character makes two alternatives, the full literal preferred. -/
def tryFenceAt (alts : List (List Char)) (cs : List Char) : Option (List Char) :=
  firstSome (alts.map (fun a => tryFenceAlt a cs))

/-- Leftmost fence match (`re.findall` scanning order; only the first
match — `code_blocks[0]` — is ever consumed by the source). -/
def searchFence (alts : List (List Char)) : List Char → Option (List Char)
  | [] => none
  | c :: rest =>
    match tryFenceAt alts (c :: rest) with
    | some g => some g
    | none => searchFence alts rest

/-- First match of the language-tagged fence pattern
`` ```{target_language}?\s*\n(.*?)\n``` `` of `_extract_content_manually`
(`code_converter.py` line 901); the `?` binds to the last character of the
language name.  The language name is treated literally here; a name
containing regex metacharacters (e.g. `c++`) would change the Python
pattern itself and is outside the model. -/
def find_first_fence (resp lang : String) : Option String :=
  (searchFence [fenceLit ++ lang.toList, (fenceLit ++ lang.toList).dropLast]
    resp.toList).map String.mk

/-- First match of the untagged fence pattern `` ```\s*\n(.*?)\n``` ``
(`code_converter.py` line 906). -/
def find_first_fence_generic (resp : String) : Option String :=
  (searchFence [fenceLit] resp.toList).map String.mk

/-- Single match attempt of `LIT\s*"([^"]*(?:\\.[^"]*)*)"` at the head of
the input (content patterns 1 and 2 of `_extract_content_manually`); as
with the repair pattern, the group closes at the first following quote. -/
def tryQuotedValueAt (lit : List Char) (cs : List Char) : Option (List Char) :=
  match stripPrefixList lit cs with
  | none => none
  | some r1 =>
    match r1.dropWhile isPySpace with
    | c :: r3 =>
      if c = dquoteChar then (scanToChar dquoteChar r3).map (fun p => p.1) else none
    | [] => none

/-- Leftmost match of a quoted content pattern. -/
def searchQuotedValue (lit : List Char) : List Char → Option (List Char)
  | [] => none
  | c :: rest =>
    match tryQuotedValueAt lit (c :: rest) with
    | some g => some g
    | none => searchQuotedValue lit rest

/-- Single match attempt of the backtick pattern ``content:\s*`([^`]*)` ``
(content pattern 3). -/
def tryTickValueAt (cs : List Char) : Option (List Char) :=
  match stripPrefixList ("content:".toList) cs with
  | none => none
  | some r1 =>
    match r1.dropWhile isPySpace with
    | c :: r3 =>
      if c = btickChar then (scanToChar btickChar r3).map (fun p => p.1) else none
    | [] => none

/-- Leftmost match of the backtick content pattern. -/
def searchTickValue : List Char → Option (List Char)
  | [] => none
  | c :: rest =>
    match tryTickValueAt (c :: rest) with
    | some g => some g
    | none => searchTickValue rest

/-- Single match attempt of the triple-quote pattern
`content:\s*"""([^"]*)"""` (content pattern 4): after the opening triple
the group runs to the first quote, which must start a closing triple. -/
def tryTripleQuoteAt (cs : List Char) : Option (List Char) :=
  match stripPrefixList ("content:".toList) cs with
  | none => none
  | some r1 =>
    match r1.dropWhile isPySpace with
    | d1 :: d2 :: d3 :: r3 =>
      if d1 = dquoteChar && d2 = dquoteChar && d3 = dquoteChar then
        match scanToChar dquoteChar r3 with
        | some pr =>
          if List.isPrefixOf [dquoteChar, dquoteChar, dquoteChar] pr.2 then some pr.1
          else none
        | none => none
      else none
    | _ => none

/-- Leftmost match of the triple-quote content pattern. -/
def searchTripleQuote : List Char → Option (List Char)
  | [] => none
  | c :: rest =>
    match tryTripleQuoteAt (c :: rest) with
    | some g => some g
    | none => searchTripleQuote rest

/-- Unescaping applied to a marker-matched content value
(`code_converter.py` line 924): `\n`, `\t`, `\"` in source order. -/
def unescapeManual (s : String) : String :=
  pyReplace (pyReplace (pyReplace s "\\n" "\n") "\\t" "\t")
    ("\\" ++ String.mk [dquoteChar]) (String.mk [dquoteChar])

/-- The four `content_patterns` of `_extract_content_manually`
(`code_converter.py` lines 911-926), tried in order with the first match
winning, its group unescaped. -/
def find_content_marker (resp : String) : Option String :=
  let cs := resp.toList
  match searchQuotedValue ("\"content\":".toList) cs with
  | some g => some (unescapeManual (String.mk g))
  | none =>
    match searchQuotedValue ("content:".toList) cs with
    | some g => some (unescapeManual (String.mk g))
    | none =>
      match searchTickValue cs with
      | some g => some (unescapeManual (String.mk g))
      | none => (searchTripleQuote cs).map (fun g => unescapeManual (String.mk g))

/-- Embedding of `CodeConverter._get_file_extension(language)`
(`code_converter.py` lines 373-385). -/
def get_file_extension (language : String) : String :=
  let l := pyLower language
  if l = "python" then "py"
  else if l = "java" then "java"
  else if l = "javascript" then "js"
  else if l = "typescript" then "ts"
  else if l = "go" then "go"
  else if l = "rust" then "rs"
  else if l = "cpp" then "cpp"
  else if l = "c" then "c"
  else "txt"

/-- `os.path.basename` for forward-slash paths. -/
def pyBasename (p : String) : String :=
  String.mk ((p.toList.reverse.takeWhile (fun c => c ≠ '/')).reverse)

/-- Root part of `os.path.splitext`: split at the last dot unless every
character before it is itself a leading dot. -/
def pySplitextRoot (b : String) : String :=
  let cs := b.toList
  let leading := (cs.takeWhile (fun c => c = '.')).length
  match lastIdxOf '.' cs with
  | some i => if leading ≤ i then String.mk (cs.take i) else b
  | none => b

/-- Embedding of `CodeConverter._extract_content_manually(ai_response,
target_language, original_file_path)` (`code_converter.py` lines
888-944): filename derived from the original path and the target
extension; the first language-tagged fence match, else the first untagged
fence match, else the first content-marker match (unescaped) becomes the
content of a dict-shaped result with empty dependencies; `none` when
nothing matches. -/
def extract_content_manually (resp targetLanguage originalFilePath : String) :
    Option JsonValue :=
  let filename := pySplitextRoot (pyBasename originalFilePath) ++ "." ++
    get_file_extension targetLanguage
  let blocks :=
    match find_first_fence resp targetLanguage with
    | some g => some g
    | none => find_first_fence_generic resp
  let contentOpt :=
    match blocks with
    | some g => some g
    | none => find_content_marker resp
  match contentOpt with
  | some content =>
    some (JsonValue.obj
      [("filename", JsonValue.str filename),
       ("content", JsonValue.str content),
       ("dependencies", JsonValue.obj []),
       ("notes", JsonValue.str ("Manually extracted from AI response for " ++ originalFilePath))])
  | none => none

/-- Recovery result `{filename, content, dependencies, notes}`
(`code_converter.py` lines 836-841); `filename`, `dependencies` and
`notes` keep whatever JSON value `json_data.get` returned (the source only
requires `content` to be a string — a non-string content raises inside the
`try` and the whole call returns `None`). -/
structure ConversionResult where
  filename : JsonValue
  content : String
  dependencies : JsonValue
  notes : JsonValue

/-- Lookup in a parsed JSON object with Python-dict semantics: the last
binding of a duplicated key wins (`json.loads` builds a dict). -/
def lookupLast (l : List (String × JsonValue)) (k : String) : Option JsonValue :=
  (l.reverse.find? (fun p => p.1 == k)).map (fun p => p.2)

/-- `json_data.get(k, dflt)`. -/
def getJson (l : List (String × JsonValue)) (k : String) (dflt : JsonValue) : JsonValue :=
  (lookupLast l k).getD dflt

/-- Post-processing and packaging of a recovered JSON value
(`code_converter.py` lines 809-844, with `target_framework = None`): a
missing value (`None`) or a falsy empty dict gives no result; a non-dict
value or a non-string content raises inside the `try` and gives no result;
otherwise escaped newlines in the content are unescaped when present, a
blank (whitespace-only) content gives no result, and the remaining fields
are read with their defaults. -/
def finish_conversion (jsonData : Option JsonValue) : Option ConversionResult :=
  match jsonData with
  | none => none
  | some (JsonValue.obj []) => none
  | some (JsonValue.obj l) =>
    match lookupLast l "content" with
    | some (JsonValue.str s) =>
      let s2 := if pyContains s "\\n" then pyReplace s "\\n" "\n" else s
      if pyStrip s2 = "" then none
      else
        some { filename := getJson l "filename" (JsonValue.str "")
               content := s2
               dependencies := getJson l "dependencies" (JsonValue.obj [])
               notes := getJson l "notes" (JsonValue.str "") }
    | some _ => none
    | none => none
  | some _ => none

/-- Embedding of `CodeConverter._parse_single_file_conversion(ai_response,
target_language, original_file_path)` (`code_converter.py` lines
764-849) with `target_framework = None` (the framework branch only
rewrites the returned filename and is outside the claims): strategy 1
parses the brace-delimited candidate; on failure strategy 2 parses
`fix_common_json_issues` of the same candidate exactly once; only when
both leave no value (or no candidate exists) does strategy 3 attempt
manual extraction; the outcome is post-processed by
`finish_conversion`. -/
def parse_single_file_conversion (aiResponse targetLanguage originalFilePath : String) :
    Option ConversionResult :=
  let strategy12 :=
    match brace_candidate aiResponse with
    | some c =>
      match json_loads c with
      | some v => some v
      | none => json_loads (fix_common_json_issues c)
    | none => none
  let jsonData :=
    match strategy12 with
    | some v => some v
    | none => extract_content_manually aiResponse targetLanguage originalFilePath
  finish_conversion jsonData

/-- The well-formed JSON example of the spec. -/
def exampleDirectJson : String :=
  "\x7b\"filename\":\"a.py\",\"content\":\"x=1\",\"dependencies\":\x7b\x7d,\"notes\":\"ok\"\x7d"

/-- The same object with a trailing comma before the closing brace. -/
def exampleTrailingComma : String :=
  "\x7b\"filename\":\"a.py\",\"content\":\"x=1\",\"dependencies\":\x7b\x7d,\"notes\":\"ok\",\x7d"

/-- A well-formed object whose content value carries a literal
backslash-n escape sequence (JSON source `x\\n1`, parsed value `x\n1`
with a literal backslash). -/
def exampleEscapedNewline : String :=
  "\x7b\"filename\":\"a.py\",\"content\":\"x\\\\n1\",\"dependencies\":\x7b\x7d,\"notes\":\"ok\"\x7d"

/-- A well-formed object whose content value is only whitespace. -/
def exampleBlankContent : String :=
  "\x7b\"filename\":\"a.py\",\"content\":\"   \",\"dependencies\":\x7b\x7d,\"notes\":\"ok\"\x7d"

/-- C3 (amended).  Strategy 1 of the Recovery Parser: when the text has a
brace-delimited candidate and its direct `json.loads` parse succeeds, the
chain short-circuits — the outcome is exactly the post-processing of the
directly parsed value, with neither the repair nor the manual-extraction
strategy consulted (first conjunct, whose right-hand side does not mention
them); the returned content is the parsed object's content field after
unescaping literal backslash-n sequences, provided it is not blank (second
conjunct); on the spec's well-formed example the returned result is
`filename a.py, content x=1, empty dependencies, notes ok` via strategy 1
(third conjunct).  The original claim's "content equals the parsed content
field" is refuted by the unescaping counterexample. -/
theorem parse_single_file_strategy1_spec :
    (∀ (resp lang path c : String) (v : JsonValue),
      brace_candidate resp = some c →
      json_loads c = some v →
      parse_single_file_conversion resp lang path = finish_conversion (some v)) ∧
    (∀ (resp lang path c : String) (l : List (String × JsonValue)) (s : String),
      brace_candidate resp = some c →
      json_loads c = some (JsonValue.obj l) →
      lookupLast l "content" = some (JsonValue.str s) →
      ¬ (pyStrip (if pyContains s "\\n" then pyReplace s "\\n" "\n" else s) = "") →
      (parse_single_file_conversion resp lang path).map ConversionResult.content =
        some (if pyContains s "\\n" then pyReplace s "\\n" "\n" else s)) ∧
    parse_single_file_conversion exampleDirectJson "python" "f.py" =
      some { filename := JsonValue.str "a.py", content := "x=1",
             dependencies := JsonValue.obj [], notes := JsonValue.str "ok" } := by
  refine ⟨?_, ?_, by rfl⟩
  · intro resp lang path c v hc hv
    simp [parse_single_file_conversion, hc, hv]
  · intro resp lang path c l s hc hv hlook hblank
    rw [show parse_single_file_conversion resp lang path =
        finish_conversion (some (JsonValue.obj l)) from by
      simp [parse_single_file_conversion, hc, hv]]
    cases l with
    | nil => simp [lookupLast] at hlook
    | cons a as =>
      simp [finish_conversion, hlook, hblank]

/-- C3 counterexample.  A successful direct parse whose content field
holds the four characters `x`, backslash, `n`, `1`: the recovery chain
returns `x`, newline, `1` — the post-processing replaced the literal
backslash-n — so the returned content is not the parsed object's content
field. -/
theorem parse_single_file_unescape_cex :
    brace_candidate exampleEscapedNewline = some exampleEscapedNewline ∧
    json_loads exampleEscapedNewline =
      some (JsonValue.obj
        [("filename", JsonValue.str "a.py"), ("content", JsonValue.str "x\\n1"),
         ("dependencies", JsonValue.obj []), ("notes", JsonValue.str "ok")]) ∧
    (parse_single_file_conversion exampleEscapedNewline "python" "f.py").map
      ConversionResult.content = some "x\n1" ∧
    ("x\n1" = "x\\n1") = False := by
  refine ⟨rfl, rfl, rfl, by decide⟩

theorem parse_single_file_strategy1_spec_witness :
    (parse_single_file_conversion exampleDirectJson "python" "f.py").map
      ConversionResult.content = some "x=1" := by
  have h := parse_single_file_strategy1_spec.2.1 exampleDirectJson "python" "f.py"
    exampleDirectJson
    [("filename", JsonValue.str "a.py"), ("content", JsonValue.str "x=1"),
     ("dependencies", JsonValue.obj []), ("notes", JsonValue.str "ok")]
    "x=1" rfl rfl rfl (by decide)
  simpa using h

/-- C4.  The explicit no-result outcome of the Recovery Parser: an input
with no brace-delimited candidate, no match of either fence pattern and no
match of any content-marker pattern yields `none` — never an exception
(the chain is a total function) and never an empty-but-valid file (first
conjunct); an input whose brace-delimited candidate fails both the direct
and the repaired parse, again with no fence and no marker, likewise yields
`none` (second conjunct — texts containing braces but no JSON object); and
a recovered result whose content is only whitespace is turned into `none`
(third conjunct). -/
theorem parse_single_file_no_result_spec :
    (∀ (resp lang path : String),
      brace_candidate resp = none →
      find_first_fence resp lang = none →
      find_first_fence_generic resp = none →
      find_content_marker resp = none →
      parse_single_file_conversion resp lang path = none) ∧
    (∀ (resp lang path c : String),
      brace_candidate resp = some c →
      json_loads c = none →
      json_loads (fix_common_json_issues c) = none →
      find_first_fence resp lang = none →
      find_first_fence_generic resp = none →
      find_content_marker resp = none →
      parse_single_file_conversion resp lang path = none) ∧
    (∀ (resp lang path c : String) (l : List (String × JsonValue)) (s : String),
      brace_candidate resp = some c →
      json_loads c = some (JsonValue.obj l) →
      lookupLast l "content" = some (JsonValue.str s) →
      pyStrip (if pyContains s "\\n" then pyReplace s "\\n" "\n" else s) = "" →
      parse_single_file_conversion resp lang path = none) := by
  refine ⟨?_, ?_, ?_⟩
  · intro resp lang path h1 h2 h3 h4
    simp [parse_single_file_conversion, extract_content_manually, finish_conversion,
      h1, h2, h3, h4]
  · intro resp lang path c hc hp1 hp2 hf1 hf2 hm
    simp [parse_single_file_conversion, extract_content_manually, finish_conversion,
      hc, hp1, hp2, hf1, hf2, hm]
  · intro resp lang path c l s hc hv hlook hblank
    rw [show parse_single_file_conversion resp lang path =
        finish_conversion (some (JsonValue.obj l)) from by
      simp [parse_single_file_conversion, hc, hv]]
    cases l with
    | nil => simp [lookupLast] at hlook
    | cons a as =>
      simp [finish_conversion, hlook, hblank]

theorem parse_single_file_no_result_spec_witness :
    parse_single_file_conversion "I cannot convert this file." "python" "f.py" = none ∧
    parse_single_file_conversion "bad \x7b not json \x7d end" "python" "f.py" = none ∧
    parse_single_file_conversion exampleBlankContent "python" "f.py" = none := by
  refine ⟨?_, ?_, ?_⟩
  · exact parse_single_file_no_result_spec.1 "I cannot convert this file." "python" "f.py"
      rfl rfl rfl rfl
  · exact parse_single_file_no_result_spec.2.1 "bad \x7b not json \x7d end" "python" "f.py"
      "\x7b not json \x7d" rfl rfl rfl rfl rfl rfl
  · exact parse_single_file_no_result_spec.2.2 exampleBlankContent "python" "f.py"
      exampleBlankContent
      [("filename", JsonValue.str "a.py"), ("content", JsonValue.str "   "),
       ("dependencies", JsonValue.obj []), ("notes", JsonValue.str "ok")]
      "   " rfl rfl rfl (by decide)

/-- C7.  Strategy 2 of the Recovery Parser: when the direct parse of the
brace-delimited candidate fails, the same candidate string is rewritten by
`fix_common_json_issues` and re-parsed exactly once — the chain outcome is
the post-processing of that single re-parse, with no repair loop and no
manual extraction on success (first conjunct); the repair applies, in
order, the content-field escaping of embedded quotes, newlines and tabs,
the removal of trailing commas before a closing brace or bracket, and the
quoting of bare keys (second conjunct); on the spec's trailing-comma
example the direct parse fails and the chain returns content `x=1` via the
repaired parse (third and fourth conjuncts). -/
theorem parse_single_file_repair_spec :
    (∀ (resp lang path c : String) (v : JsonValue),
      brace_candidate resp = some c →
      json_loads c = none →
      json_loads (fix_common_json_issues c) = some v →
      parse_single_file_conversion resp lang path = finish_conversion (some v)) ∧
    (∀ s : String, fix_common_json_issues s =
      quote_bare_keys (remove_trailing_commas (fix_content_field s))) ∧
    json_loads exampleTrailingComma = none ∧
    (parse_single_file_conversion exampleTrailingComma "python" "f.py").map
      ConversionResult.content = some "x=1" := by
  refine ⟨?_, fun s => rfl, rfl, rfl⟩
  intro resp lang path c v hc h1 h2
  simp [parse_single_file_conversion, hc, h1, h2]

theorem parse_single_file_repair_spec_witness :
    parse_single_file_conversion exampleTrailingComma "python" "f.py" =
      finish_conversion (some (JsonValue.obj
        [("filename", JsonValue.str "a.py"), ("content", JsonValue.str "x=1"),
         ("dependencies", JsonValue.obj []), ("notes", JsonValue.str "ok")])) :=
  parse_single_file_repair_spec.1 exampleTrailingComma "python" "f.py"
    exampleTrailingComma
    (JsonValue.obj
      [("filename", JsonValue.str "a.py"), ("content", JsonValue.str "x=1"),
       ("dependencies", JsonValue.obj []), ("notes", JsonValue.str "ok")])
    rfl rfl rfl
